import Mathlib

/-!
Verification of the Project Zomboid save auto-backup application.

The visible TypeScript frontend (Dashboard, SaveSelector, BackupList,
RestoreModal) is embedded directly from its source.  The Rust backup
engine (backup store, retention GC, undo-snapshot store, restore
operator, auto-backup scheduler) is not part of the visible sources, so
it is modelled from the specification document; each such definition is
marked `Modelled from the spec:` in its doc comment.
-/

namespace PZBackup

/-! ### Frontend definitions, embedded from the TypeScript sources -/

/-- Embedding of `Dashboard.formatErrorMessage` (src/src/components/Dashboard.tsx,
lines 52-55): `errStr.length > 100 ? errStr.substring(0, 100) + "..." : errStr`. -/
def formatErrorMessage (errStr : List Char) : List Char :=
  if errStr.length > 100 then errStr.take 100 ++ ['.', '.', '.'] else errStr

/-- Embedding of `formatTimeAgo`: computes `diffSecs = ⌊diffMs/1000⌋`,
`diffMins = ⌊diffSecs/60⌋`, `diffHours = ⌊diffMins/60⌋`,
`diffDays = ⌊diffHours/24⌋` and buckets exactly as the source does. -/
def formatTimeAgo (diffMs : Nat) (localeDate : String) : String :=
  let diffSecs := diffMs / 1000
  let diffMins := diffSecs / 60
  let diffHours := diffMins / 60
  let diffDays := diffHours / 24
  if diffSecs < 60 then "just now"
  else if diffMins < 60 then
    toString diffMins ++ " minute" ++ (if diffMins ≠ 1 then "s" else "") ++ " ago"
  else if diffHours < 24 then
    toString diffHours ++ " hour" ++ (if diffHours ≠ 1 then "s" else "") ++ " ago"
  else if diffDays < 7 then
    toString diffDays ++ " day" ++ (if diffDays ≠ 1 then "s" else "") ++ " ago"
  else localeDate

/-- `SaveEntry` as declared in src/src/components/SaveSelector.tsx. -/
structure SaveEntry where
  game_mode : String
  save_name : String
  relative_path : String
deriving DecidableEq, Repr

/-- JS truthiness of a `string | null` value: `null` and `""` are falsy. -/
def truthy : Option String → Bool
  | none => false
  | some s => s ≠ ""

/-- Embedding of the state-updating tail of `SaveSelector.loadSaves`
(src/src/components/SaveSelector.tsx, lines 46-61) after a successful
`invoke`.  Inputs: the current `selectedSave` prop, the flattened
`saveEntries`, and the current `selectedGameModeKey` state.  Output:
the new `selectedGameModeKey`, and the argument of the `onSaveChange`
call if one is made (`none` = `onSaveChange` not called). -/
def loadSavesSuccess (selectedSave : Option String) (saveEntries : List SaveEntry)
    (currentKey : String) : String × Option (Option String) :=
  if !truthy selectedSave && !saveEntries.isEmpty then
    match saveEntries with
    | firstEntry :: _ => (firstEntry.game_mode, some (some firstEntry.relative_path))
    | [] => (currentKey, none)
  else if truthy selectedSave then
    match selectedSave with
    | some sel =>
      match saveEntries.find? (fun e => e.relative_path == sel) with
      | some entry => (entry.game_mode, none)
      | none => ("", some none)
    | none => (currentKey, none)
  else (currentKey, none)

/-! ### Engine definitions (modelled from the spec): timestamps and naming -/

/-- Modelled from the spec: the engine is not in the visible sources; a
creation timestamp, as consumed by the backup-name format
`{SaveName}_{YYYY-MM-DD}_{HH-mm-ss}` (§3, §6), is a calendar date-time. -/
structure DateTime where
  year : Nat
  month : Nat
  day : Nat
  hour : Nat
  minute : Nat
  second : Nat
deriving DecidableEq, Repr

/-- A representable calendar date-time (four-digit year, fields in range). -/
def ValidDT (t : DateTime) : Prop :=
  t.year ≤ 9999 ∧ 1 ≤ t.month ∧ t.month ≤ 12 ∧ 1 ≤ t.day ∧ t.day ≤ 31 ∧
    t.hour ≤ 23 ∧ t.minute ≤ 59 ∧ t.second ≤ 59

instance (t : DateTime) : Decidable (ValidDT t) := by
  unfold ValidDT
  infer_instance

/-- Chronological (lexicographic) strict order on date-times. -/
def dtLT (a b : DateTime) : Prop :=
  a.year < b.year ∨ (a.year = b.year ∧ (a.month < b.month ∨ (a.month = b.month ∧
    (a.day < b.day ∨ (a.day = b.day ∧ (a.hour < b.hour ∨ (a.hour = b.hour ∧
      (a.minute < b.minute ∨ (a.minute = b.minute ∧ a.second < b.second)))))))))

instance (a b : DateTime) : Decidable (dtLT a b) := by
  unfold dtLT
  infer_instance

/-- Non-strict chronological order on date-times. -/
def dtLE (a b : DateTime) : Prop := dtLT a b ∨ a = b

instance (a b : DateTime) : Decidable (dtLE a b) := by
  unfold dtLE
  infer_instance

/-- The ASCII digit character of a decimal digit. -/
def digitChar (n : Nat) : Char := Char.ofNat (48 + n)

/-- Zero-padded fixed-width decimal rendering (most significant digit first). -/
def padDigits : Nat → Nat → List Char
  | 0, _ => []
  | w + 1, n => digitChar (n / 10 ^ w) :: padDigits w (n % 10 ^ w)

/-- Strict lexicographic order on character sequences (the order underlying
Lean's `String` order). -/
def charsLT (as bs : List Char) : Prop := List.Lex (· < ·) as bs

/-- The character tail of a backup name after the `saveName_` prefix:
`YYYY-MM-DD_HH-mm-ss`. -/
def nameTail (t : DateTime) : List Char :=
  padDigits 4 t.year ++ '-' :: (padDigits 2 t.month ++ '-' :: (padDigits 2 t.day ++
    '_' :: (padDigits 2 t.hour ++ '-' :: (padDigits 2 t.minute ++ '-' :: padDigits 2 t.second))))

/-- Zero-padded two-digit field as a string. -/
def pad2 (n : Nat) : String := ⟨padDigits 2 n⟩

/-- Zero-padded four-digit field as a string. -/
def pad4 (n : Nat) : String := ⟨padDigits 4 n⟩

/-- Modelled from the spec: the engine is not in the visible sources; the
backup name is derived deterministically from the save name and creation
time in the format `{SaveName}_{YYYY-MM-DD}_{HH-mm-ss}` (§3, CLAUDE.md
"Backup Strategy"). -/
def backupName (saveName : String) (t : DateTime) : String :=
  saveName ++ "_" ++ pad4 t.year ++ "-" ++ pad2 t.month ++ "-" ++ pad2 t.day ++ "_" ++
    pad2 t.hour ++ "-" ++ pad2 t.minute ++ "-" ++ pad2 t.second

/-! ### Engine definitions: backup records and Retention GC -/

/-- Modelled from the spec: `BackupRecord` (§3) —
`{ name, path, size_bytes, created_at }`. -/
structure BackupRecord where
  name : String
  path : String
  size_bytes : Nat
  created_at : DateTime
deriving DecidableEq, Repr

/-- Modelled from the spec: the Retention GC ordering (§4.2) — oldest first
by `created_at`, ties on identical timestamps broken by lexicographic
order of `name`. -/
def recLE (a b : BackupRecord) : Prop :=
  dtLT a.created_at b.created_at ∨ (a.created_at = b.created_at ∧ a.name ≤ b.name)

instance : DecidableRel recLE := fun a b => by
  unfold recLE
  infer_instance

/-- Modelled from the spec: Retention GC (§4.2) —
`select_for_deletion(backups, keep)`: if `len(backups) <= keep` returns
empty, otherwise the `len(backups) - keep` oldest records, ties on
identical timestamps broken by lexicographic order of `name`.  The records
are put in that order and the excess prefix (the oldest) is selected. -/
def select_for_deletion (backups : List BackupRecord) (keep : Nat) : List BackupRecord :=
  if backups.length ≤ keep then []
  else (List.insertionSort recLE backups).take (backups.length - keep)

/-! ### Engine definitions: backup store -/

/-- A save's on-disk state: a file tree as a finite list of
(relative path, byte content) pairs. -/
abbrev FileTree := List (String × List Nat)

/-- Total size in bytes of a file tree. -/
def treeSize (t : FileTree) : Nat := (t.map (fun f => f.2.length)).sum

/-- Modelled from the spec: the Directory Copier (§4.1) recursively copies
a tree preserving relative structure and contents byte-for-byte; on the
value level a completed copy is the identity (failures are injected by
callers through explicit success flags). -/
def copy_tree (src : FileTree) : FileTree := src

/-- A backup as stored on disk: its record plus the copied tree. -/
structure StoredBackup where
  record : BackupRecord
  tree : FileTree
deriving DecidableEq, Repr

/-- The engine state for a single save: the live save directory, the
save's backup directory, and the save's undo-snapshot directory. -/
structure EngState where
  live : FileTree
  backups : List StoredBackup
  undo : List StoredBackup
deriving DecidableEq, Repr

/-- Modelled from the spec: the record and copied tree produced by a
`create_backup` at time `now` (§4.3): name from the save name and current
time, path `backup_root/save_name/backup_name`, measured size. -/
def storedOf (saveName : String) (st : EngState) (now : DateTime) : StoredBackup :=
  { record :=
      { name := backupName saveName now,
        path := "backup_root/" ++ saveName ++ "/" ++ backupName saveName now,
        size_bytes := treeSize (copy_tree st.live),
        created_at := now },
    tree := copy_tree st.live }

/-- The result of `create_backup`: new state, new record, and the counts
`{deleted_count, retained_count}` returned to the caller. -/
structure CreateResult where
  state : EngState
  record : BackupRecord
  deleted_count : Nat
  retained_count : Nat
deriving DecidableEq, Repr

/-- Modelled from the spec: Backup Store `create_backup` (§4.3) — copies
the save directory into the backup root, lists the existing backups (which
now include the new copy), runs Retention GC with `retention_count`,
deletes the selected set (by backup name, i.e. directory), and returns the
new record plus `{retained_count, deleted_count}`. -/
def create_backup (saveName : String) (st : EngState) (now : DateTime)
    (retention_count : Nat) : CreateResult :=
  let stored := storedOf saveName st now
  let all := st.backups ++ [stored]
  let toDelete := select_for_deletion (all.map (fun b => b.record)) retention_count
  let kept := all.filter (fun b => !(toDelete.any (fun d => d.name == b.record.name)))
  { state := { st with backups := kept },
    record := stored.record,
    deleted_count := toDelete.length,
    retained_count := kept.length }

/-- Creation time of the i-th scenario backup. -/
def scenarioTime (i : Nat) : DateTime := ⟨2024, 1, 1, 0, 0, i⟩

/-- Initial scenario state: a small save, no backups, no snapshots. -/
def scenarioInit : EngState :=
  { live := [("map_sand.bin", [1, 2, 3])], backups := [], undo := [] }

/-- One scenario step: create the i-th backup with retention 3. -/
def scenarioStep (st : EngState) (i : Nat) : EngState :=
  (create_backup "S" st (scenarioTime i) 3).state

/-- The result of creating B5 (after B1..B4 have been created). -/
def scenarioRes5 : CreateResult :=
  create_backup "S"
    (scenarioStep (scenarioStep (scenarioStep (scenarioStep scenarioInit 1) 2) 3) 4)
    (scenarioTime 5) 3

/-! ### Engine definitions: restore operator -/

/-- Modelled from the spec: the restore error taxonomy relevant to the
restore operator (§7): `UndoSnapshotFailed`, `NotFound`, and a copy-phase
failure. -/
inductive RestoreError
  | UndoSnapshotFailed
  | NotFound
  | CopyFailed
deriving DecidableEq, Repr

/-- Modelled from the spec: the undo snapshot created by a restore (§3,
§4.4): same naming and size/time tracking as a backup, stored under the
distinct `.undo` namespace, content the save's current on-disk state. -/
def undoStoredOf (saveName : String) (st : EngState) (now : DateTime) : StoredBackup :=
  { record :=
      { name := backupName saveName now,
        path := "backup_root/.undo/" ++ saveName ++ "/" ++ backupName saveName now,
        size_bytes := treeSize (copy_tree st.live),
        created_at := now },
    tree := copy_tree st.live }

/-- Modelled from the spec: Restore Operator `restore` (§4.5) — (1) create
an undo snapshot of the save's current on-disk state, aborting with
`UndoSnapshotFailed` (no destructive step) if that fails; (2) delete the
current save directory contents; (3) copy the chosen backup into the save
directory.  `snapshotOk` and `copyOk` inject filesystem failures of
steps 1 and 3. -/
def restore (saveName : String) (st : EngState) (backup_name : String) (now : DateTime)
    (snapshotOk : Bool) (copyOk : Bool) : EngState × Option RestoreError :=
  if !snapshotOk then (st, some RestoreError.UndoSnapshotFailed)
  else
    let st1 := { st with undo := st.undo ++ [undoStoredOf saveName st now] }
    match st.backups.find? (fun b => b.record.name == backup_name) with
    | none => (st1, some RestoreError.NotFound)
    | some chosen =>
      if !copyOk then ({ st1 with live := [] }, some RestoreError.CopyFailed)
      else ({ st1 with live := copy_tree chosen.tree }, none)

/-! ### Engine definitions: auto-backup scheduler -/

/-- Modelled from the spec: per-save `AutoBackupState` (§3) —
`{ save_name, enabled, last_backup_time, next_backup_time }`. -/
structure AutoBackupEntry where
  save_name : String
  enabled : Bool
  last_backup_time : Option Nat
  next_backup_time : Option Nat
deriving DecidableEq, Repr

/-- Modelled from the spec: singleton `AutoBackupServiceState` (§3) —
`{ is_running, interval_seconds, started_at, saves }`. -/
structure AutoBackupServiceState where
  is_running : Bool
  interval_seconds : Nat
  started_at : Option Nat
  saves : List AutoBackupEntry
deriving DecidableEq, Repr

/-- Modelled from the spec: the scheduler error relevant here (§7). -/
inductive SchedulerError
  | InvalidInterval
deriving DecidableEq, Repr

/-- Modelled from the spec: the service state created at process start —
stopped, no saves; the spec fixes no default interval, the scenario value
300 s is used (§3, §8). -/
def initServiceState : AutoBackupServiceState :=
  { is_running := false, interval_seconds := 300, started_at := none, saves := [] }

/-- A save is due when `last_backup_time` is absent, or `now` has reached
`next_backup_time` (§4.6). -/
def isDue (a : AutoBackupEntry) (now : Nat) : Bool :=
  a.last_backup_time.isNone ||
    (match a.next_backup_time with
     | some nt => decide (nt ≤ now)
     | none => false)

/-- The per-save effect of one scheduler tick at time `now`, where
`backupOk` tells whether the invoked `create_backup` succeeded: on
success `last_backup_time := now` and
`next_backup_time := now + interval`; on failure the entry is unchanged
so the save is retried next tick (§4.6). -/
def tickEntry (interval now : Nat) (backupOk : String → Bool) (a : AutoBackupEntry) :
    AutoBackupEntry :=
  if a.enabled && isDue a now then
    if backupOk a.save_name then
      { a with last_backup_time := some now, next_backup_time := some (now + interval) }
    else a
  else a

/-- Modelled from the spec: one tick of the running scheduler evaluates
every enabled save (§4.6); a stopped scheduler does nothing. -/
def tick (st : AutoBackupServiceState) (now : Nat) (backupOk : String → Bool) :
    AutoBackupServiceState :=
  if st.is_running then
    { st with saves := st.saves.map (tickEntry st.interval_seconds now backupOk) }
  else st

/-- The per-save effect of `set_auto_backup_interval` on an entry:
enabled saves get `next_backup_time` recomputed from their existing
`last_backup_time` (absent stays absent, i.e. still due now); disabled
saves are untouched (§4.6). -/
def setIntervalEntry (seconds : Nat) (a : AutoBackupEntry) : AutoBackupEntry :=
  if a.enabled then { a with next_backup_time := a.last_backup_time.map (· + seconds) }
  else a

/-- Modelled from the spec: `set_auto_backup_interval(seconds)` (§4.6, §6)
— rejects values outside [60, 86400] leaving the state unchanged;
otherwise stores the interval and recomputes `next_backup_time` for all
enabled saves without forcing an immediate backup. -/
def set_auto_backup_interval (st : AutoBackupServiceState) (seconds : Nat) :
    AutoBackupServiceState × Option SchedulerError :=
  if seconds < 60 || 86400 < seconds then (st, some SchedulerError.InvalidInterval)
  else
    ({ st with interval_seconds := seconds,
               saves := st.saves.map (setIntervalEntry seconds) }, none)

/-- Modelled from the spec: `enable_auto_backup(save_name)` (§4.6) — an
already-known save is re-enabled, a new save is added enabled with no
prior backup time (immediately due). -/
def enable_auto_backup (st : AutoBackupServiceState) (name : String) :
    AutoBackupServiceState :=
  if st.saves.any (fun a => a.save_name == name) then
    { st with saves := st.saves.map (fun a =>
        if a.save_name == name then { a with enabled := true } else a) }
  else
    { st with saves := st.saves ++ [⟨name, true, none, none⟩] }

/-- Modelled from the spec: `disable_auto_backup(save_name)` (§4.6). -/
def disable_auto_backup (st : AutoBackupServiceState) (name : String) :
    AutoBackupServiceState :=
  { st with saves := st.saves.map (fun a =>
      if a.save_name == name then { a with enabled := false } else a) }

/-- Modelled from the spec: `start_auto_backup` / `stop_auto_backup`
(§4.6, §6). -/
def start_auto_backup (st : AutoBackupServiceState) (now : Nat) : AutoBackupServiceState :=
  { st with is_running := true, started_at := some now }

/-- Modelled from the spec: stopping halts future ticks (§4.6). -/
def stop_auto_backup (st : AutoBackupServiceState) : AutoBackupServiceState :=
  { st with is_running := false }

/-- The scheduler's command surface, for reachability statements. -/
inductive SchedOp
  | setInterval (seconds : Nat)
  | enable (name : String)
  | disable (name : String)
  | tickAt (now : Nat) (backupOk : String → Bool)
  | start (now : Nat)
  | stop

/-- Apply one scheduler operation (`setInterval` discards the error). -/
def applyOp (st : AutoBackupServiceState) : SchedOp → AutoBackupServiceState
  | SchedOp.setInterval s => (set_auto_backup_interval st s).1
  | SchedOp.enable n => enable_auto_backup st n
  | SchedOp.disable n => disable_auto_backup st n
  | SchedOp.tickAt now ok => tick st now ok
  | SchedOp.start now => start_auto_backup st now
  | SchedOp.stop => stop_auto_backup st

/-- The state reached from process start by a sequence of operations. -/
def runOps (ops : List SchedOp) : AutoBackupServiceState :=
  ops.foldl applyOp initServiceState

/-! ### Claim C9: Dashboard.formatErrorMessage -/

/-- Claim C9: `formatErrorMessage` returns the input unchanged when its
length is at most 100 code units, otherwise the first 100 code units
followed by `"..."`; the result never exceeds 103 code units. -/
theorem C9_formatErrorMessage_truncates (err : List Char) :
    (err.length ≤ 100 → formatErrorMessage err = err) ∧
    (100 < err.length → formatErrorMessage err = err.take 100 ++ ['.', '.', '.']) ∧
    (formatErrorMessage err).length ≤ 103 := by
  refine ⟨fun h => ?_, fun h => ?_, ?_⟩
  · simp [formatErrorMessage, Nat.not_lt.mpr h]
  · simp [formatErrorMessage, h]
  · by_cases h : 100 < err.length
    · simp only [formatErrorMessage, if_pos h, List.length_append, List.length_take,
        List.length_cons, List.length_nil]
      omega
    · simp only [formatErrorMessage, if_neg h]
      omega

/-- Witness for C9: a 101-character input is truncated to 103 characters,
a short input is returned unchanged. -/
theorem C9_formatErrorMessage_truncates_witness :
    formatErrorMessage (List.replicate 101 'e') =
      (List.replicate 101 'e').take 100 ++ ['.', '.', '.'] ∧
    formatErrorMessage ['a'] = ['a'] :=
  ⟨(C9_formatErrorMessage_truncates (List.replicate 101 'e')).2.1 (by simp),
   (C9_formatErrorMessage_truncates ['a']).1 (by simp)⟩

/-! ### Claim C10: BackupList.formatTimeAgo -/

/-- A string ending in " ago" is never the string "just now"
(their last characters differ). -/
theorem append_ago_ne_justnow (x : String) : x ++ " ago" ≠ "just now" := by
  intro h
  have hd : x.data ++ [' ', 'a', 'g', 'o'] = ['j', 'u', 's', 't', ' ', 'n', 'o', 'w'] := by
    have h2 := congrArg String.data h
    rwa [String.data_append] at h2
  have h3 := congrArg List.reverse hd
  rw [List.reverse_append] at h3
  rw [show ([' ', 'a', 'g', 'o'] : List Char).reverse = ['o', 'g', 'a', ' '] from rfl] at h3
  rw [show (['j', 'u', 's', 't', ' ', 'n', 'o', 'w'] : List Char).reverse
      = ['w', 'o', 'n', ' ', 't', 's', 'u', 'j'] from rfl] at h3
  simp only [List.cons_append, List.nil_append, List.cons.injEq] at h3
  exact absurd h3.1 (by decide)

/-- Claim C10: `formatTimeAgo` returns "just now" exactly when the elapsed
time is under 60 seconds; for at least 60 seconds but under 60 minutes it
returns "m minute(s) ago" with m = ⌊elapsedSeconds/60⌋ and the plural "s"
present exactly when m ≠ 1; hours (under 24) and days (under 7) bucket
analogously, before falling back to the locale date string. -/
theorem C10_formatTimeAgo_buckets (diffMs : Nat) (localeDate : String)
    (hld : localeDate ≠ "just now") :
    (formatTimeAgo diffMs localeDate = "just now" ↔ diffMs / 1000 < 60) ∧
    (60 ≤ diffMs / 1000 → diffMs / 1000 < 3600 →
      formatTimeAgo diffMs localeDate =
        toString (diffMs / 1000 / 60) ++ " minute" ++
          (if diffMs / 1000 / 60 ≠ 1 then "s" else "") ++ " ago") ∧
    (3600 ≤ diffMs / 1000 → diffMs / 1000 < 86400 →
      formatTimeAgo diffMs localeDate =
        toString (diffMs / 1000 / 3600) ++ " hour" ++
          (if diffMs / 1000 / 3600 ≠ 1 then "s" else "") ++ " ago") ∧
    (86400 ≤ diffMs / 1000 → diffMs / 1000 < 604800 →
      formatTimeAgo diffMs localeDate =
        toString (diffMs / 1000 / 86400) ++ " day" ++
          (if diffMs / 1000 / 86400 ≠ 1 then "s" else "") ++ " ago") ∧
    (604800 ≤ diffMs / 1000 → formatTimeAgo diffMs localeDate = localeDate) := by
  refine ⟨?_, ?_, ?_, ?_, ?_⟩ <;> simp only [formatTimeAgo]
  · by_cases h1 : diffMs / 1000 < 60
    · rw [if_pos h1]
      exact iff_of_true rfl h1
    · rw [if_neg h1]
      apply iff_of_false _ h1
      split_ifs
      all_goals first
        | exact append_ago_ne_justnow _
        | exact hld
  · intro ha hb
    rw [if_neg (by omega), if_pos (by omega)]
  · intro ha hb
    rw [if_neg (by omega), if_neg (by omega), if_pos (by omega),
      show diffMs / 1000 / 60 / 60 = diffMs / 1000 / 3600 from by omega]
  · intro ha hb
    rw [if_neg (by omega), if_neg (by omega), if_neg (by omega), if_pos (by omega),
      show diffMs / 1000 / 60 / 60 / 24 = diffMs / 1000 / 86400 from by omega]
  · intro ha
    rw [if_neg (by omega), if_neg (by omega), if_neg (by omega), if_neg (by omega)]

/-- Witness for C10: 30 elapsed seconds renders as "just now", 150 elapsed
seconds renders as "2 minutes ago". -/
theorem C10_formatTimeAgo_buckets_witness :
    formatTimeAgo 30000 "1/1/2020" = "just now" ∧
    formatTimeAgo 150000 "1/1/2020" = "2 minutes ago" := by
  constructor
  · exact (C10_formatTimeAgo_buckets 30000 "1/1/2020" (by decide)).1.mpr (by omega)
  · exact ((C10_formatTimeAgo_buckets 150000 "1/1/2020" (by decide)).2.1
      (by omega) (by omega)).trans (by decide)

/-! ### Claim C8: SaveSelector.loadSaves -/

/-- Claim C8: when `loadSaves` finishes while a save is selected, the
selection is cleared (game-mode key set to "" and `onSaveChange null`
called) exactly when no loaded entry matches the selected relative path;
otherwise the selection is kept (no `onSaveChange` call) and the game-mode
key becomes the matching entry's game mode. -/
theorem C8_loadSaves_selection (sel : String) (hsel : sel ≠ "") (entries : List SaveEntry)
    (key : String) :
    ((∀ e ∈ entries, e.relative_path ≠ sel) →
       loadSavesSuccess (some sel) entries key = ("", some none)) ∧
    (∀ e ∈ entries, e.relative_path = sel →
       ∃ chosen ∈ entries, chosen.relative_path = sel ∧
         loadSavesSuccess (some sel) entries key = (chosen.game_mode, none)) := by
  have ht : truthy (some sel) = true := by simp [truthy, hsel]
  constructor
  · intro hall
    have hf : entries.find? (fun e => e.relative_path == sel) = none := by
      rw [List.find?_eq_none]
      intro x hx
      simp only [beq_iff_eq]
      exact hall x hx
    simp [loadSavesSuccess, ht, hf]
  · intro e he hrel
    cases hfind : entries.find? (fun e => e.relative_path == sel) with
    | none =>
        exfalso
        rw [List.find?_eq_none] at hfind
        exact hfind e he (by simp [hrel])
    | some chosen =>
        refine ⟨chosen, List.mem_of_find?_eq_some hfind, ?_, ?_⟩
        · have := List.find?_some hfind
          simpa [beq_iff_eq] using this
        · simp [loadSavesSuccess, ht, hfind]

/-- Witness for C8: a stale selection is cleared; a still-present selection
is kept with its entry's game mode. -/
theorem C8_loadSaves_selection_witness :
    loadSavesSuccess (some "gone") [⟨"Sandbox", "W", "Sandbox/W"⟩] "Sandbox"
      = ("", some none) ∧
    ∃ chosen ∈ [(⟨"Sandbox", "W", "Sandbox/W"⟩ : SaveEntry)],
      chosen.relative_path = "Sandbox/W" ∧
      loadSavesSuccess (some "Sandbox/W") [⟨"Sandbox", "W", "Sandbox/W"⟩] "Sandbox"
        = (chosen.game_mode, none) :=
  ⟨(C8_loadSaves_selection "gone" (by decide) [⟨"Sandbox", "W", "Sandbox/W"⟩] "Sandbox").1
      (by decide),
   (C8_loadSaves_selection "Sandbox/W" (by decide) [⟨"Sandbox", "W", "Sandbox/W"⟩] "Sandbox").2
      ⟨"Sandbox", "W", "Sandbox/W"⟩ (by decide) rfl⟩

/-! ### Claim C7: backup naming -/

theorem dtLT_trans {a b c : DateTime} (h1 : dtLT a b) (h2 : dtLT b c) : dtLT a c := by
  unfold dtLT at h1 h2 ⊢
  omega

theorem dtLT_trichotomy (a b : DateTime) : dtLT a b ∨ a = b ∨ dtLT b a := by
  have h : dtLT a b ∨ (a.year = b.year ∧ a.month = b.month ∧ a.day = b.day ∧
      a.hour = b.hour ∧ a.minute = b.minute ∧ a.second = b.second) ∨ dtLT b a := by
    unfold dtLT
    omega
  rcases h with h | h | h
  · exact Or.inl h
  · refine Or.inr (Or.inl ?_)
    obtain ⟨y1, mo1, d1, h1, mi1, s1⟩ := a
    obtain ⟨y2, mo2, d2, h2, mi2, s2⟩ := b
    simp_all
  · exact Or.inr (Or.inr h)

theorem padDigits_length (w n : Nat) : (padDigits w n).length = w := by
  induction w generalizing n with
  | zero => rfl
  | succ w ih => simp [padDigits, ih]

theorem digitChar_lt_digitChar : ∀ i < 10, ∀ j < 10, i < j → digitChar i < digitChar j := by
  decide

/-- Fixed-width zero-padded decimal strings order like the numbers they render. -/
theorem padDigits_lt (w : Nat) : ∀ a b : Nat, a < b → b < 10 ^ w →
    charsLT (padDigits w a) (padDigits w b) := by
  induction w with
  | zero =>
    intro a b hab hb
    exact absurd hb (by omega)
  | succ w ih =>
    intro a b hab hb
    have hpow : (10 : Nat) ^ (w + 1) = 10 ^ w * 10 := pow_succ 10 w
    have hwpos : 0 < (10 : Nat) ^ w := pow_pos (by norm_num) w
    have hbq : b / 10 ^ w < 10 := by
      rw [Nat.div_lt_iff_lt_mul hwpos]
      omega
    have haq : a / 10 ^ w ≤ b / 10 ^ w := Nat.div_le_div_right hab.le
    simp only [padDigits]
    rcases Nat.lt_or_ge (a / 10 ^ w) (b / 10 ^ w) with hq | hq
    · exact List.Lex.rel (digitChar_lt_digitChar _ (by omega) _ hbq hq)
    · have hqe : a / 10 ^ w = b / 10 ^ w := Nat.le_antisymm haq hq
      have ha' := Nat.div_add_mod a (10 ^ w)
      have hb' := Nat.div_add_mod b (10 ^ w)
      rw [hqe] at ha'
      have hr : a % 10 ^ w < b % 10 ^ w := by omega
      have hrb : b % 10 ^ w < 10 ^ w := Nat.mod_lt _ hwpos
      rw [hqe]
      exact List.Lex.cons (ih _ _ hr hrb)

/-- Prepending a common prefix preserves strict lexicographic order. -/
theorem charsLT_append_left (p : List Char) (as bs : List Char) (h : charsLT as bs) :
    charsLT (p ++ as) (p ++ bs) := by
  induction p with
  | nil => simpa using h
  | cons x xs ih => exact List.Lex.cons ih

/-- Two equal-length prefixes in strict lexicographic order dominate any suffixes. -/
theorem charsLT_append_of_lt : ∀ {xs ys : List Char}, xs.length = ys.length → charsLT xs ys →
    ∀ as bs : List Char, charsLT (xs ++ as) (ys ++ bs) := by
  intro xs ys hlen h
  revert hlen
  induction h with
  | nil => intro hlen; exact absurd hlen (by simp)
  | cons hlt ih =>
    intro hlen as bs
    exact List.Lex.cons (ih (by simpa using hlen) as bs)
  | rel hab => intro _ as bs; exact List.Lex.rel hab

/-- One field of the backup name: a padded number followed by a separator
and the rest.  The combined rendering is lexicographically increasing if
the field decreases or ties to the rest. -/
theorem padDigits_field_lt (w a b : Nat) (sep : Char) (as bs : List Char)
    (hb : b < 10 ^ w) (h : a < b ∨ (a = b ∧ charsLT (sep :: as) (sep :: bs))) :
    charsLT (padDigits w a ++ sep :: as) (padDigits w b ++ sep :: bs) := by
  rcases h with hab | ⟨rfl, h⟩
  · exact charsLT_append_of_lt (by rw [padDigits_length, padDigits_length])
      (padDigits_lt w a b hab hb) _ _
  · exact charsLT_append_left _ _ _ h

theorem backupName_data (s : String) (t : DateTime) :
    (backupName s t).data = s.data ++ '_' :: nameTail t := by
  simp only [backupName, nameTail, pad2, pad4, String.data_append]
  simp [List.append_assoc]

/-- Chronological order of valid timestamps gives lexicographic order of
name tails. -/
theorem nameTail_lt (t1 t2 : DateTime) (h1 : ValidDT t1) (h2 : ValidDT t2) (h : dtLT t1 t2) :
    charsLT (nameTail t1) (nameTail t2) := by
  obtain ⟨hy2, _, hmo2, _, hd2, hh2, hmi2, hs2⟩ := h2
  have h104 : (10 : Nat) ^ 4 = 10000 := by norm_num
  have h102 : (10 : Nat) ^ 2 = 100 := by norm_num
  unfold nameTail
  rcases h with hy | ⟨hye, h⟩
  · exact padDigits_field_lt 4 _ _ '-' _ _ (by omega) (Or.inl hy)
  apply padDigits_field_lt 4 _ _ '-' _ _ (by omega) (Or.inr ⟨hye, ?_⟩)
  refine List.Lex.cons ?_
  rcases h with hmo | ⟨hmoe, h⟩
  · exact padDigits_field_lt 2 _ _ '-' _ _ (by omega) (Or.inl hmo)
  apply padDigits_field_lt 2 _ _ '-' _ _ (by omega) (Or.inr ⟨hmoe, ?_⟩)
  refine List.Lex.cons ?_
  rcases h with hd | ⟨hde, h⟩
  · exact padDigits_field_lt 2 _ _ '_' _ _ (by omega) (Or.inl hd)
  apply padDigits_field_lt 2 _ _ '_' _ _ (by omega) (Or.inr ⟨hde, ?_⟩)
  refine List.Lex.cons ?_
  rcases h with hh | ⟨hhe, h⟩
  · exact padDigits_field_lt 2 _ _ '-' _ _ (by omega) (Or.inl hh)
  apply padDigits_field_lt 2 _ _ '-' _ _ (by omega) (Or.inr ⟨hhe, ?_⟩)
  refine List.Lex.cons ?_
  rcases h with hmi | ⟨hmie, hs⟩
  · exact padDigits_field_lt 2 _ _ '-' _ _ (by omega) (Or.inl hmi)
  apply padDigits_field_lt 2 _ _ '-' _ _ (by omega) (Or.inr ⟨hmie, ?_⟩)
  refine List.Lex.cons ?_
  exact padDigits_lt 2 _ _ hs (by omega)

/-- Chronologically earlier valid creation time gives a lexicographically
smaller backup name for the same save. -/
theorem backupName_lt (s : String) (t1 t2 : DateTime) (h1 : ValidDT t1) (h2 : ValidDT t2)
    (h : dtLT t1 t2) : backupName s t1 < backupName s t2 := by
  rw [String.lt_iff_toList_lt]
  have e1 : (backupName s t1).toList = s.data ++ '_' :: nameTail t1 := backupName_data s t1
  have e2 : (backupName s t2).toList = s.data ++ '_' :: nameTail t2 := backupName_data s t2
  rw [e1, e2]
  exact charsLT_append_left _ _ _ (List.Lex.cons (nameTail_lt t1 t2 h1 h2 h))

/-- Claim C7: the backup name is a deterministic function of the save name
and creation time, and for two backups of the same save an earlier
creation time yields a lexicographically smaller name (chronological
order and name order agree). -/
theorem C7_backupName_deterministic_monotone (s : String) (t1 t2 : DateTime) :
    (t1 = t2 → backupName s t1 = backupName s t2) ∧
    (ValidDT t1 → ValidDT t2 → dtLT t1 t2 → backupName s t1 < backupName s t2) :=
  ⟨fun h => by rw [h], fun h1 h2 h => backupName_lt s t1 t2 h1 h2 h⟩

/-- Witness for C7: concrete timestamps one second apart across a day
boundary give names in the matching lexicographic order, and the rendered
name has the documented format. -/
theorem C7_backupName_deterministic_monotone_witness :
    backupName "MySave" ⟨2024, 3, 9, 23, 59, 59⟩ < backupName "MySave" ⟨2024, 3, 10, 0, 0, 0⟩ ∧
    backupName "MySave" ⟨2024, 3, 9, 23, 59, 59⟩ = "MySave_2024-03-09_23-59-59" :=
  ⟨(C7_backupName_deterministic_monotone "MySave" ⟨2024, 3, 9, 23, 59, 59⟩
      ⟨2024, 3, 10, 0, 0, 0⟩).2 (by decide) (by decide) (by decide),
   by decide⟩

/-! ### Claim C3: Retention GC -/

/-- The GC ordering is transitive. -/
theorem recLE_trans : ∀ a b c : BackupRecord, recLE a b → recLE b c → recLE a c := by
  intro a b c hab hbc
  rcases hab with hab | ⟨eab, nab⟩
  · rcases hbc with hbc | ⟨ebc, _⟩
    · exact Or.inl (dtLT_trans hab hbc)
    · exact Or.inl (ebc ▸ hab)
  · rcases hbc with hbc | ⟨ebc, nbc⟩
    · exact Or.inl (eab ▸ hbc)
    · exact Or.inr ⟨eab.trans ebc, le_trans nab nbc⟩

/-- The GC ordering is total. -/
theorem recLE_total : ∀ a b : BackupRecord, recLE a b ∨ recLE b a := by
  intro a b
  rcases dtLT_trichotomy a.created_at b.created_at with h | h | h
  · exact Or.inl (Or.inl h)
  · rcases le_total a.name b.name with hn | hn
    · exact Or.inl (Or.inr ⟨h, hn⟩)
    · exact Or.inr (Or.inr ⟨h.symm, hn⟩)
  · exact Or.inr (Or.inl h)

/-- Claim C3: for a sequence ordered by `created_at` ascending,
`select_for_deletion` returns the empty set when `len ≤ keep`, and
otherwise exactly the `len - keep` oldest records (ties broken by name:
every selected record precedes every retained one in the
timestamp-then-name order); removing the selected records and applying it
again selects nothing. -/
theorem C3_select_for_deletion_spec (backups : List BackupRecord) (keep : Nat)
    (hasc : backups.Pairwise (fun a b => dtLE a.created_at b.created_at)) :
    (backups.length ≤ keep → select_for_deletion backups keep = []) ∧
    (keep < backups.length →
      (select_for_deletion backups keep).length = backups.length - keep ∧
      ∃ rest, backups.Perm (select_for_deletion backups keep ++ rest) ∧
        rest.length = keep ∧
        ∀ d ∈ select_for_deletion backups keep, ∀ r ∈ rest, recLE d r) ∧
    (∀ rest, backups.Perm (select_for_deletion backups keep ++ rest) →
      select_for_deletion rest keep = []) := by
  have hperm : (List.insertionSort recLE backups).Perm backups :=
    List.perm_insertionSort recLE backups
  have hlen : (List.insertionSort recLE backups).length = backups.length :=
    hperm.length_eq
  haveI : IsTrans BackupRecord recLE := ⟨recLE_trans⟩
  haveI : IsTotal BackupRecord recLE := ⟨recLE_total⟩
  have hsorted : List.Sorted recLE (List.insertionSort recLE backups) :=
    List.sorted_insertionSort recLE backups
  refine ⟨fun h => by simp [select_for_deletion, h], fun h => ?_, fun rest hr => ?_⟩
  · have hsel : select_for_deletion backups keep
        = (List.insertionSort recLE backups).take (backups.length - keep) := by
      simp [select_for_deletion, Nat.not_le.mpr h]
    refine ⟨?_, (List.insertionSort recLE backups).drop (backups.length - keep), ?_, ?_, ?_⟩
    · rw [hsel, List.length_take, hlen]
      omega
    · rw [hsel, List.take_append_drop]
      exact hperm.symm
    · rw [List.length_drop, hlen]
      omega
    · rw [hsel]
      intro d hd r hrst
      have := hsorted
      rw [List.Sorted, ← List.take_append_drop (backups.length - keep)
        (List.insertionSort recLE backups), List.pairwise_append] at this
      exact this.2.2 d hd r hrst
  · have hl := hr.length_eq
    rw [List.length_append] at hl
    by_cases h : backups.length ≤ keep
    · have : select_for_deletion backups keep = [] := by simp [select_for_deletion, h]
      rw [this] at hl
      simp only [List.length_nil, Nat.zero_add] at hl
      have : rest.length ≤ keep := by omega
      simp [select_for_deletion, this]
    · have hsl : (select_for_deletion backups keep).length = backups.length - keep := by
        simp only [select_for_deletion, if_neg h, List.length_take, hlen]
        omega
      have : rest.length ≤ keep := by omega
      simp [select_for_deletion, this]

/-- Witness for C3: concrete runs of `select_for_deletion`, including a
timestamp tie broken by name. -/
theorem C3_select_for_deletion_spec_witness :
    select_for_deletion [⟨"A", "p", 1, ⟨2024, 1, 1, 0, 0, 0⟩⟩] 3 = [] ∧
    (select_for_deletion
        [⟨"A", "p", 1, ⟨2024, 1, 1, 0, 0, 0⟩⟩, ⟨"B", "q", 1, ⟨2024, 1, 1, 0, 0, 0⟩⟩,
         ⟨"C", "r", 1, ⟨2024, 1, 2, 0, 0, 0⟩⟩] 1).length = 3 - 1 := by
  constructor
  · exact (C3_select_for_deletion_spec [⟨"A", "p", 1, ⟨2024, 1, 1, 0, 0, 0⟩⟩] 3
      (by decide)).1 (by decide)
  · exact ((C3_select_for_deletion_spec
      [⟨"A", "p", 1, ⟨2024, 1, 1, 0, 0, 0⟩⟩, ⟨"B", "q", 1, ⟨2024, 1, 1, 0, 0, 0⟩⟩,
       ⟨"C", "r", 1, ⟨2024, 1, 2, 0, 0, 0⟩⟩] 1 (by decide)).2.1 (by decide)).1

/-! ### Claim C2: retention after create_backup -/

/-- `any` over a mapped list tests the composed predicate. -/
theorem any_map_general {α β : Type} (f : α → β) (l : List α) (p : β → Bool) :
    (l.map f).any p = l.any (fun a => p (f a)) := by
  induction l with
  | nil => rfl
  | cons x xs ih => simp [ih]

/-- Removing (by name) the first `j` elements of a list of stored backups
with pairwise-distinct names leaves exactly the suffix from `j` on. -/
theorem filter_not_take_names (l : List StoredBackup) (j : Nat)
    (hnd : (l.map (fun b => b.record.name)).Nodup) :
    l.filter (fun b => !((l.take j).any (fun d => d.record.name == b.record.name)))
      = l.drop j := by
  induction l generalizing j with
  | nil => simp
  | cons x xs ih =>
    cases j with
    | zero => simp
    | succ j =>
      simp only [List.map_cons, List.nodup_cons] at hnd
      have hx : ¬((x :: (xs.take j)).any
          (fun d => d.record.name == x.record.name)) = false := by
        simp
      simp only [List.take_succ_cons, List.filter_cons, List.any_cons,
        beq_self_eq_true, Bool.true_or, Bool.not_true, List.drop_succ_cons]
      rw [List.filter_congr (q := fun b =>
        !((xs.take j).any (fun d => d.record.name == b.record.name)))]
      · exact ih j hnd.2
      · intro b hb
        have hne : x.record.name ≠ b.record.name := by
          intro he
          exact hnd.1 (he ▸ List.mem_map_of_mem (fun b => b.record.name) hb)
        simp [List.any_cons, hne]

/-- Characterization of `create_backup` on a well-formed state: with the
combined list (old backups plus the new one) strictly ascending in
`created_at` and with pairwise-distinct names, GC deletes exactly the
excess oldest prefix and keeps the suffix. -/
theorem create_backup_char (saveName : String) (st : EngState) (now : DateTime) (k : Nat)
    (hchron : ((st.backups ++ [storedOf saveName st now]).map (fun b => b.record)).Pairwise
      (fun a b => dtLT a.created_at b.created_at))
    (hnames : ((st.backups ++ [storedOf saveName st now]).map
      (fun b => b.record.name)).Nodup) :
    create_backup saveName st now k =
      { state := { st with backups := List.drop (st.backups.length + 1 - k) (st.backups ++ [storedOf saveName st now]) },
        record := (storedOf saveName st now).record,
        deleted_count := st.backups.length + 1 - k,
        retained_count := min (st.backups.length + 1) k } := by
  have hall : (st.backups ++ [storedOf saveName st now]).length = st.backups.length + 1 := by
    simp
  have hsorted : List.Sorted recLE
      ((st.backups ++ [storedOf saveName st now]).map (fun b => b.record)) :=
    hchron.imp (fun h => Or.inl h)
  have hsel : select_for_deletion
      ((st.backups ++ [storedOf saveName st now]).map (fun b => b.record)) k
      = ((st.backups ++ [storedOf saveName st now]).map (fun b => b.record)).take
          (st.backups.length + 1 - k) := by
    unfold select_for_deletion
    rw [List.Sorted.insertionSort_eq hsorted, List.length_map, hall]
    by_cases h : st.backups.length + 1 ≤ k
    · rw [if_pos h, show st.backups.length + 1 - k = 0 from by omega, List.take_zero]
    · rw [if_neg h]
  have hkept : (st.backups ++ [storedOf saveName st now]).filter (fun b =>
      !((select_for_deletion
          ((st.backups ++ [storedOf saveName st now]).map (fun b => b.record)) k).any
        (fun d => d.name == b.record.name)))
      = (st.backups ++ [storedOf saveName st now]).drop (st.backups.length + 1 - k) := by
    rw [hsel, ← List.map_take]
    have heq : ∀ b : StoredBackup,
        (((st.backups ++ [storedOf saveName st now]).take
            (st.backups.length + 1 - k)).map (fun b => b.record)).any
          (fun d => d.name == b.record.name)
        = ((st.backups ++ [storedOf saveName st now]).take (st.backups.length + 1 - k)).any
            (fun d => d.record.name == b.record.name) := by
      intro b
      rw [any_map_general]
    rw [List.filter_congr (fun b _ => by rw [heq b])]
    exact filter_not_take_names _ _ hnames
  have hlen : ((st.backups ++ [storedOf saveName st now]).drop
      (st.backups.length + 1 - k)).length = min (st.backups.length + 1) k := by
    rw [List.length_drop, hall]
    omega
  have hdel : (select_for_deletion
      ((st.backups ++ [storedOf saveName st now]).map (fun b => b.record)) k).length
      = st.backups.length + 1 - k := by
    rw [hsel, List.length_take, List.length_map, hall]
    omega
  simp only [create_backup]
  rw [hkept, hdel, hlen]

/-- Claim C2 counterexample: in the sequential B1..B5 scenario with
retention 3, the fifth `create_backup` returns `deleted_count = 1`
(only B2 is deleted by that call; B1 was already deleted when B4 was
created), not `deleted_count = 2` as the claim states. -/
theorem C2_counterexample_fifth_deleted_count :
    scenarioRes5.deleted_count = 1 ∧ ¬ scenarioRes5.deleted_count = 2 := by
  decide

/-- Claim C2 (amended): for every retention count k ≥ 1, after
`create_backup` the save owns exactly `min(n, k)` backups (n counting the
new one) and the retained set is exactly the k most recent by
`created_at` (the suffix of the ascending list), with
`retained_count = min(n, k)` and `deleted_count = n - min(n, k)`; in the
sequential B1..B5 scenario with retention 3, after B5 exactly
{B3, B4, B5} remain and B1, B2 have been deleted, with B5's create
returning `retained_count = 3` and `deleted_count = 1` (not 2: B1 was
already deleted by B4's create). -/
theorem C2_amended_retention_gc :
    (∀ (saveName : String) (st : EngState) (now : DateTime) (k : Nat), 1 ≤ k →
      ((st.backups ++ [storedOf saveName st now]).map (fun b => b.record)).Pairwise
        (fun a b => dtLT a.created_at b.created_at) →
      ((st.backups ++ [storedOf saveName st now]).map (fun b => b.record.name)).Nodup →
      (create_backup saveName st now k).state.backups.length
          = min (st.backups.length + 1) k ∧
      (create_backup saveName st now k).retained_count = min (st.backups.length + 1) k ∧
      (create_backup saveName st now k).deleted_count
          = (st.backups.length + 1) - min (st.backups.length + 1) k ∧
      (create_backup saveName st now k).state.backups
          = List.drop (st.backups.length + 1 - k) (st.backups ++ [storedOf saveName st now])) ∧
    (scenarioRes5.retained_count = 3 ∧ scenarioRes5.deleted_count = 1 ∧
      scenarioRes5.state.backups.map (fun b => b.record.name)
        = [backupName "S" (scenarioTime 3), backupName "S" (scenarioTime 4),
           backupName "S" (scenarioTime 5)]) := by
  constructor
  · intro saveName st now k hk hchron hnames
    rw [create_backup_char saveName st now k hchron hnames]
    refine ⟨?_, rfl, ?_, rfl⟩
    · simp only [List.length_drop, List.length_append, List.length_cons, List.length_nil]
      omega
    · simp only
      omega
  · refine ⟨by decide, by decide, by decide⟩

/-- Witness for C2 (amended): a first backup of a fresh save with
retention 3 is retained, nothing deleted. -/
theorem C2_amended_retention_gc_witness :
    (create_backup "W" ⟨[], [], []⟩ (scenarioTime 1) 3).state.backups.length = min (0 + 1) 3 ∧
    (create_backup "W" ⟨[], [], []⟩ (scenarioTime 1) 3).retained_count = min (0 + 1) 3 ∧
    (create_backup "W" ⟨[], [], []⟩ (scenarioTime 1) 3).deleted_count
        = (0 + 1) - min (0 + 1) 3 ∧
    (create_backup "W" ⟨[], [], []⟩ (scenarioTime 1) 3).state.backups
        = List.drop (0 + 1 - 3) ([] ++ [storedOf "W" ⟨[], [], []⟩ (scenarioTime 1)]) :=
  C2_amended_retention_gc.1 "W" ⟨[], [], []⟩ (scenarioTime 1) 3 (by decide) (by decide)
    (by decide)

/-! ### Claim C1: restore snapshots first -/

/-- Claim C1: every restore first creates exactly one new undo snapshot
whose content is the save's pre-restore on-disk state; if snapshot
creation fails the restore aborts with `UndoSnapshotFailed` and the state
(live directory included) is untouched; when the snapshot succeeds it is
present regardless of whether the copy step later fails. -/
theorem C1_restore_undo_snapshot_first (saveName : String) (st : EngState)
    (bname : String) (now : DateTime) (snapshotOk copyOk : Bool) :
    (snapshotOk = false →
      restore saveName st bname now snapshotOk copyOk
        = (st, some RestoreError.UndoSnapshotFailed)) ∧
    (snapshotOk = true →
      (restore saveName st bname now snapshotOk copyOk).1.undo
          = st.undo ++ [undoStoredOf saveName st now] ∧
      (undoStoredOf saveName st now).tree = st.live) := by
  constructor
  · intro h
    simp [restore, h]
  · intro h
    subst h
    refine ⟨?_, rfl⟩
    cases hfind : st.backups.find? (fun b => b.record.name == bname) with
    | none => simp [restore, hfind]
    | some chosen => cases copyOk <;> simp [restore, hfind]

/-- Witness for C1: a failed snapshot aborts with the state untouched; a
successful snapshot is recorded even though the copy step fails. -/
theorem C1_restore_undo_snapshot_first_witness :
    restore "S" ⟨[("a", [1])], [], []⟩ "missing" (scenarioTime 1) false true
      = (⟨[("a", [1])], [], []⟩, some RestoreError.UndoSnapshotFailed) ∧
    (restore "S" ⟨[("a", [1])], [], []⟩ "missing" (scenarioTime 1) true false).1.undo
      = [] ++ [undoStoredOf "S" ⟨[("a", [1])], [], []⟩ (scenarioTime 1)] :=
  ⟨(C1_restore_undo_snapshot_first "S" ⟨[("a", [1])], [], []⟩ "missing" (scenarioTime 1)
      false true).1 rfl,
   ((C1_restore_undo_snapshot_first "S" ⟨[("a", [1])], [], []⟩ "missing" (scenarioTime 1)
      true false).2 rfl).1⟩

/-! ### Claim C4: backup/restore round trip -/

/-- `find?` on a list ending in the only matching element finds it. -/
theorem find?_append_singleton (l : List StoredBackup) (x : StoredBackup)
    (p : StoredBackup → Bool) (hl : ∀ b ∈ l, p b = false) (hx : p x = true) :
    (l ++ [x]).find? p = some x := by
  induction l with
  | nil => simp [List.find?_cons_of_pos _ hx]
  | cons y ys ih =>
    rw [List.cons_append, List.find?_cons_of_neg _ (by simp [hl y (by simp)])]
    exact ih (fun b hb => hl b (by simp [hb]))

/-- A fully successful restore of a found backup copies its tree into the
live save directory. -/
theorem restore_success_live (saveName : String) (st : EngState) (bname : String)
    (now : DateTime) (chosen : StoredBackup)
    (hfind : st.backups.find? (fun b => b.record.name == bname) = some chosen) :
    (restore saveName st bname now true true).1.live = copy_tree chosen.tree := by
  simp [restore, hfind]

/-- Claim C4: backing up a save and then restoring it from that backup
(with both filesystem phases succeeding) reproduces the save's file tree
at backup time byte-for-byte, even if the live tree changed in between. -/
theorem C4_backup_restore_roundtrip (saveName : String) (st : EngState)
    (now now2 : DateTime) (k : Nat) (hk : 1 ≤ k)
    (hchron : ((st.backups ++ [storedOf saveName st now]).map (fun b => b.record)).Pairwise
      (fun a b => dtLT a.created_at b.created_at))
    (hnames : ((st.backups ++ [storedOf saveName st now]).map
      (fun b => b.record.name)).Nodup)
    (midLive : FileTree) :
    (restore saveName { (create_backup saveName st now k).state with live := midLive }
        (create_backup saveName st now k).record.name now2 true true).1.live
      = st.live := by
  rw [create_backup_char saveName st now k hchron hnames]
  have hj : st.backups.length + 1 - k ≤ st.backups.length := by omega
  have hnotbefore : ∀ b ∈ st.backups.drop (st.backups.length + 1 - k),
      (b.record.name == (storedOf saveName st now).record.name) = false := by
    intro b hb
    rw [List.map_append] at hnames
    have hdisj := (List.nodup_append.mp hnames).2.2
    rw [beq_eq_false_iff_ne]
    intro he
    exact List.disjoint_left.mp hdisj
      (List.mem_map_of_mem (fun b => b.record.name) (List.mem_of_mem_drop hb))
      (by simp [he])
  have hfind : (List.drop (st.backups.length + 1 - k)
        (st.backups ++ [storedOf saveName st now])).find?
        (fun b => b.record.name == (storedOf saveName st now).record.name)
      = some (storedOf saveName st now) := by
    rw [List.drop_append_of_le_length hj]
    exact find?_append_singleton _ _ _ hnotbefore (by simp)
  refine Eq.trans (restore_success_live saveName _ _ now2 (storedOf saveName st now) ?_) rfl
  exact hfind

/-- Witness for C4: a concrete one-file save is reproduced byte-for-byte
by create-then-restore with retention 3, even after the live tree was
overwritten in between. -/
theorem C4_backup_restore_roundtrip_witness :
    (restore "S" { (create_backup "S" scenarioInit (scenarioTime 1) 3).state with
        live := [("corrupted.bin", [9])] }
      (create_backup "S" scenarioInit (scenarioTime 1) 3).record.name (scenarioTime 2)
      true true).1.live
    = scenarioInit.live :=
  C4_backup_restore_roundtrip "S" scenarioInit (scenarioTime 1) (scenarioTime 2) 3
    (by decide) (by decide) (by decide) [("corrupted.bin", [9])]

/-! ### Claim C6: interval invariant -/

/-- Claim C6: in every reachable service state
`interval_seconds ∈ [60, 86400]`: the initial state is in range and
`set_auto_backup_interval` rejects out-of-range values leaving the state
unchanged. -/
theorem C6_interval_invariant :
    (∀ ops : List SchedOp, 60 ≤ (runOps ops).interval_seconds ∧
      (runOps ops).interval_seconds ≤ 86400) ∧
    (∀ (st : AutoBackupServiceState) (s : Nat), (s < 60 ∨ 86400 < s) →
      set_auto_backup_interval st s = (st, some SchedulerError.InvalidInterval)) := by
  have hstep : ∀ (st : AutoBackupServiceState) (op : SchedOp),
      60 ≤ st.interval_seconds ∧ st.interval_seconds ≤ 86400 →
      60 ≤ (applyOp st op).interval_seconds ∧ (applyOp st op).interval_seconds ≤ 86400 := by
    intro st op hst
    cases op with
    | setInterval s =>
        simp only [applyOp, set_auto_backup_interval]
        by_cases h : s < 60 || 86400 < s
        · rw [if_pos h]
          exact hst
        · rw [if_neg h]
          simp only [Bool.or_eq_true, decide_eq_true_eq, not_or] at h
          dsimp only
          omega
    | enable n =>
        simp only [applyOp, enable_auto_backup]
        split_ifs <;> exact hst
    | disable n => exact hst
    | tickAt now ok =>
        simp only [applyOp, tick]
        by_cases h : st.is_running
        · rw [if_pos h]
          exact hst
        · rw [if_neg h]
          exact hst
    | start now => exact hst
    | stop => exact hst
  constructor
  · intro ops
    rw [runOps]
    induction ops using List.reverseRecOn with
    | nil => simp [initServiceState]
    | append_singleton ops op ih =>
        rw [List.foldl_append, List.foldl_cons, List.foldl_nil]
        exact hstep _ op ih
  · intro st s hs
    have : (s < 60 || 86400 < s) = true := by
      simp only [Bool.or_eq_true, decide_eq_true_eq]
      omega
    simp [set_auto_backup_interval, this]

/-- Witness for C6: after a valid change and a rejected change the
interval is in range, and the rejection leaves the state unchanged. -/
theorem C6_interval_invariant_witness :
    (60 ≤ (runOps [SchedOp.setInterval 120, SchedOp.setInterval 30]).interval_seconds ∧
      (runOps [SchedOp.setInterval 120, SchedOp.setInterval 30]).interval_seconds ≤ 86400) ∧
    set_auto_backup_interval initServiceState 86401
      = (initServiceState, some SchedulerError.InvalidInterval) :=
  ⟨C6_interval_invariant.1 [SchedOp.setInterval 120, SchedOp.setInterval 30],
   C6_interval_invariant.2 initServiceState 86401 (Or.inr (by omega))⟩

/-! ### Claim C5: scheduler timing -/

/-- Claim C5: after a successful scheduled backup at tick time `now` the
entry has `last_backup_time = now` and
`next_backup_time = now + interval` (= last + interval); a save enabled
with no prior `last_backup_time` is due immediately, so a running
scheduler backs it up on the very first tick; and
`set_auto_backup_interval s` recomputes `next_backup_time = t0 + s` from
the existing `last_backup_time = t0` of every enabled save, leaving
`last_backup_time` unchanged (no forced immediate backup). -/
theorem C5_scheduler_times (st : AutoBackupServiceState) (now : Nat)
    (backupOk : String → Bool) (a : AutoBackupEntry) (s t0 : Nat) (n : String) :
    (st.is_running = true → a ∈ st.saves → a.enabled = true → isDue a now = true →
      backupOk a.save_name = true →
      { a with last_backup_time := some now,
               next_backup_time := some (now + st.interval_seconds) }
        ∈ (tick st now backupOk).saves) ∧
    (a.last_backup_time = none → isDue a now = true) ∧
    ((∀ b ∈ st.saves, b.save_name ≠ n) →
      (⟨n, true, none, none⟩ : AutoBackupEntry) ∈ (enable_auto_backup st n).saves) ∧
    (60 ≤ s → s ≤ 86400 → a ∈ st.saves → a.enabled = true →
      a.last_backup_time = some t0 →
      { a with next_backup_time := some (t0 + s) }
          ∈ (set_auto_backup_interval st s).1.saves ∧
      (set_auto_backup_interval st s).2 = none) := by
  refine ⟨?_, ?_, ?_, ?_⟩
  · intro hrun hmem hen hdue hok
    have : tickEntry st.interval_seconds now backupOk a
        = { a with last_backup_time := some now,
                   next_backup_time := some (now + st.interval_seconds) } := by
      simp [tickEntry, hen, hdue, hok]
    rw [tick, if_pos hrun]
    exact this ▸ List.mem_map_of_mem (tickEntry st.interval_seconds now backupOk) hmem
  · intro h
    simp [isDue, h]
  · intro hnone
    have : st.saves.any (fun a => a.save_name == n) = false := by
      rw [List.any_eq_false]
      intro b hb
      simp [hnone b hb]
    simp [enable_auto_backup, this]
  · intro h60 h86400 hmem hen hlast
    have hcond : ¬(s < 60 || 86400 < s) = true := by
      simp only [Bool.or_eq_true, decide_eq_true_eq]
      omega
    have hentry : setIntervalEntry s a = { a with next_backup_time := some (t0 + s) } := by
      simp [setIntervalEntry, hen, hlast]
    constructor
    · rw [set_auto_backup_interval, if_neg hcond]
      exact hentry ▸ List.mem_map_of_mem (setIntervalEntry s) hmem
    · rw [set_auto_backup_interval, if_neg hcond]

/-- Witness for C5: a save enabled with no prior backup is due and backed
up on the first tick with `next = now + interval`; changing the interval
from 300 to 120 recomputes `next = t0 + 120` without touching `last`. -/
theorem C5_scheduler_times_witness :
    (⟨"W", true, some 50, some (50 + 300)⟩ : AutoBackupEntry)
      ∈ (tick ⟨true, 300, some 0, [⟨"W", true, none, none⟩]⟩ 50 (fun _ => true)).saves ∧
    isDue ⟨"W", true, none, none⟩ 0 = true ∧
    (⟨"W", true, some 1000, some (1000 + 120)⟩ : AutoBackupEntry)
      ∈ (set_auto_backup_interval ⟨true, 300, some 0, [⟨"W", true, some 1000, some 1300⟩]⟩
          120).1.saves := by
  refine ⟨?_, ?_, ?_⟩
  · exact (C5_scheduler_times ⟨true, 300, some 0, [⟨"W", true, none, none⟩]⟩ 50
      (fun _ => true) ⟨"W", true, none, none⟩ 120 1000 "W").1 rfl (by decide) rfl
      (by decide) rfl
  · exact (C5_scheduler_times initServiceState 0 (fun _ => true)
      ⟨"W", true, none, none⟩ 120 1000 "W").2.1 rfl
  · exact ((C5_scheduler_times ⟨true, 300, some 0, [⟨"W", true, some 1000, some 1300⟩]⟩ 50
      (fun _ => true) ⟨"W", true, some 1000, some 1300⟩ 120 1000 "W").2.2.2 (by omega)
      (by omega) (by decide) rfl rfl).1

end PZBackup

